import Mathlib

/-!
Verification development for the vectra-engine core
(`src/vectra-engine/src/lib.rs`): the snapping layout engine with its
spatial hash, the absolute-to-CSS-grid converter with tolerance-based
coordinate clustering, and the bounded compressed undo/redo history store.

Machine floats (`f64`) are embedded as exact rationals (`ℚ`): every
operation the modelled code performs on coordinates (addition,
subtraction, multiplication, division, absolute value, comparison,
`floor`, `round`) is mirrored exactly over `ℚ`.  `i32`/`i64` casts of
floored values are modelled as `ℤ` (no wraparound: all quantities are
canvas-scale).
-/

namespace Vectra

/-- Inclusive integer range `lo..=hi` as a list, mirroring Rust's
`lo..=hi` iteration order (empty when `hi < lo`). -/
def intRange (lo hi : ℤ) : List ℤ :=
  (List.range (hi + 1 - lo).toNat).map (fun i => lo + (i : ℤ))

/-- Rust `f64::round` (round half away from zero), on exact rationals. -/
def rustRound (q : ℚ) : ℤ :=
  if 0 ≤ q then ⌊q + 1/2⌋ else ⌈q - 1/2⌉

/-- Snap tolerance in canvas pixels (`const SNAP_TOL: f64 = 4.0`). -/
def SNAP_TOL : ℚ := 4

/-- Insert a value into an ascending list (insertion-sort step). -/
def insertSorted (x : ℚ) : List ℚ → List ℚ
  | [] => [x]
  | y :: ys => if x ≤ y then x :: y :: ys else y :: insertSorted x ys

/-- Ascending sort, modelling `coords.sort_by(partial_cmp …)`.  On `ℚ`
the comparison is total, and a sorted rearrangement of a list of plain
values is unique, so this insertion sort returns exactly the list
Rust's (stable) sort produces. -/
def sortCoords (l : List ℚ) : List ℚ :=
  l.foldr insertSorted []

/-- One step of the clustering fold of `dedup_coords`: state is
(sealed groups, running group sum, running group count). -/
def dedupStep (acc : List ℚ × ℚ × ℕ) (val : ℚ) : List ℚ × ℚ × ℕ :=
  let r := acc.1
  let s := acc.2.1
  let n := acc.2.2
  if |val - s / (n : ℚ)| ≤ SNAP_TOL then (r, s + val, n + 1)
  else (r ++ [s / (n : ℚ)], val, 1)

/-- Source `dedup_coords`: sort, then walk left-to-right merging every value
within `SNAP_TOL` of the running group mean into the current group;
sealed groups emit their mean. -/
def dedup_coords (coords : List ℚ) : List ℚ :=
  match sortCoords coords with
  | [] => []
  | c :: cs =>
    let fin := cs.foldl dedupStep ([], c, 1)
    fin.1 ++ [fin.2.1 / (fin.2.2 : ℚ)]

/-- Tail of `find_coord_idx`'s `min_by` scan: `cur` is the index of the
next element of `vs` in the full list, `bi`/`bv` the index and value of
the best element so far.  The best is replaced only when the new
distance is strictly smaller, exactly as Rust's `Iterator::min_by`
keeps the first of equally-minimal elements. -/
def fciAux (t : ℚ) : List ℚ → ℕ → ℕ → ℚ → ℕ
  | [], _, bi, _ => bi
  | v :: vs, cur, bi, bv =>
    if |v - t| < |bv - t| then fciAux t vs (cur + 1) cur v
    else fciAux t vs (cur + 1) bi bv

/-- Source `find_coord_idx`: index of the element of `breaks` nearest to
`target` (linear `min_by` scan; first index wins ties; `0` for an
empty list, mirroring `.unwrap_or(0)`). -/
def find_coord_idx (breaks : List ℚ) (target : ℚ) : ℕ :=
  match breaks with
  | [] => 0
  | b :: bs => fciAux target bs 1 0 b

/-- Source `struct SimpleRect` — lightweight rect for snap queries. -/
structure SimpleRect where
  x : ℚ
  y : ℚ
  w : ℚ
  h : ℚ
deriving DecidableEq

instance : Inhabited SimpleRect := ⟨⟨0, 0, 0, 0⟩⟩

/-- Source `struct Guide` — transient visual alignment indicator (`end` is a
Lean keyword, so the source's `end` field is named `end_`). -/
structure Guide where
  orientation : String
  pos : ℚ
  start : ℚ
  end_ : ℚ
  guide_type : String
deriving DecidableEq

/-- Source `struct SnapResult` — corrected position plus guides. -/
structure SnapResult where
  x : ℚ
  y : ℚ
  guides : List Guide
deriving DecidableEq

/-- Source `struct LayoutEngine` — retained sibling rects, spatial hash and
cell size.  The `HashMap<(i32,i32), Vec<usize>>` is modelled as a total
function from cells to index lists (absent key ↦ `[]`, matching the
`grid.get(..)`-returns-`None` reading used by the queries). -/
structure LayoutEngine where
  rects : List SimpleRect
  grid : ℤ × ℤ → List ℕ
  cell_size : ℚ

/-- Constructor `LayoutEngine::new()`. -/
def LayoutEngine.new : LayoutEngine :=
  { rects := [], grid := fun _ => [], cell_size := 100 }

/-- Insertion `self.grid.entry(c).or_default().push(idx)`. -/
def gridInsert (g : ℤ × ℤ → List ℕ) (c : ℤ × ℤ) (idx : ℕ) : ℤ × ℤ → List ℕ :=
  fun p => if p = c then g c ++ [idx] else g p

/-- Cells covered by a rect/box whose corner cells are given, in the
source's `for gx { for gy }` iteration order. -/
def cellsBetween (gx_min gx_max gy_min gy_max : ℤ) : List (ℤ × ℤ) :=
  (intRange gx_min gx_max).flatMap fun gx =>
    (intRange gy_min gy_max).map fun gy => (gx, gy)

/-- Grid-rebuild loop of `update_rects`: every rect index is inserted
into each cell its bounding box overlaps. -/
def buildGrid (rects : List SimpleRect) (cell_size : ℚ) : ℤ × ℤ → List ℕ :=
  rects.enum.foldl
    (fun g p =>
      let idx := p.1
      let r := p.2
      let cells := cellsBetween
        ⌊r.x / cell_size⌋ ⌊(r.x + r.w) / cell_size⌋
        ⌊r.y / cell_size⌋ ⌊(r.y + r.h) / cell_size⌋
      cells.foldl (fun g2 c => gridInsert g2 c idx) g)
    (fun _ => [])

/-- Source `LayoutEngine::update_rects`: store the sibling list, recompute the
dynamic cell size (`avg_dim × 1.5` clamped to `[50, 500]`; left
untouched when the list is empty), and rebuild the spatial hash. -/
def update_rects (e : LayoutEngine) (rects : List SimpleRect) : LayoutEngine :=
  let count := rects.length
  let cell_size :=
    if 0 < count then
      let total_dim := (rects.map fun r => r.w + r.h).sum
      let avg_dim := total_dim / ((count : ℚ) * 2)
      min (max (avg_dim * (3/2)) 50) 500
    else e.cell_size
  { rects := rects, grid := buildGrid rects cell_size, cell_size := cell_size }

/-- First-occurrence deduplication of candidate indices, modelling the
`HashSet<usize>`-guarded push into `candidates`. -/
def dedupFirst (l : List ℕ) : List ℕ :=
  l.foldl (fun acc i => if i ∈ acc then acc else acc ++ [i]) []

/-- Mutable loop state of `query_snapping`. -/
structure SnapState where
  new_x : ℚ
  new_y : ℚ
  guides : List Guide
  snapped_x : Bool
  snapped_y : Bool

/-- The nine X-axis alignment pairs `(target, sibling)` in the source's
exact order: left/center/right of the moving rect against
left/center/right of the sibling. -/
def xPoints (new_x width : ℚ) (sib : SimpleRect) : List (ℚ × ℚ) :=
  [ (new_x,             sib.x),
    (new_x,             sib.x + sib.w / 2),
    (new_x,             sib.x + sib.w),
    (new_x + width / 2, sib.x),
    (new_x + width / 2, sib.x + sib.w / 2),
    (new_x + width / 2, sib.x + sib.w),
    (new_x + width,     sib.x),
    (new_x + width,     sib.x + sib.w / 2),
    (new_x + width,     sib.x + sib.w) ]

/-- The nine Y-axis alignment pairs (top/middle/bottom analogue). -/
def yPoints (new_y height : ℚ) (sib : SimpleRect) : List (ℚ × ℚ) :=
  [ (new_y,              sib.y),
    (new_y,              sib.y + sib.h / 2),
    (new_y,              sib.y + sib.h),
    (new_y + height / 2, sib.y),
    (new_y + height / 2, sib.y + sib.h / 2),
    (new_y + height / 2, sib.y + sib.h),
    (new_y + height,     sib.y),
    (new_y + height,     sib.y + sib.h / 2),
    (new_y + height,     sib.y + sib.h) ]

/-- X-axis snap attempt against one sibling: first pair whose absolute
difference is strictly below `threshold` wins; the signed delta closes
the gap and one vertical guide is appended. -/
def snapAxisX (st : SnapState) (width height threshold : ℚ) (sib : SimpleRect) : SnapState :=
  if st.snapped_x then st
  else
    match (xPoints st.new_x width sib).find? (fun p => decide (|p.1 - p.2| < threshold)) with
    | none => st
    | some ts =>
      { st with
        new_x := st.new_x + (ts.2 - ts.1),
        snapped_x := true,
        guides := st.guides ++
          [{ orientation := "vertical", pos := ts.2,
             start := min st.new_y sib.y,
             end_ := max (st.new_y + height) (sib.y + sib.h),
             guide_type := "align" }] }

/-- Y-axis snap attempt against one sibling (uses the X-updated state,
as the source mutates `new_x` before building the Y guide). -/
def snapAxisY (st : SnapState) (width height threshold : ℚ) (sib : SimpleRect) : SnapState :=
  if st.snapped_y then st
  else
    match (yPoints st.new_y height sib).find? (fun p => decide (|p.1 - p.2| < threshold)) with
    | none => st
    | some ts =>
      { st with
        new_y := st.new_y + (ts.2 - ts.1),
        snapped_y := true,
        guides := st.guides ++
          [{ orientation := "horizontal", pos := ts.2,
             start := min st.new_x sib.x,
             end_ := max (st.new_x + width) (sib.x + sib.w),
             guide_type := "align" }] }

/-- Candidate loop of `query_snapping`, including the early `break`
once both axes are snapped.  Out-of-range indices (impossible for a
grid built by `update_rects`) read the default rect, where Rust would
panic. -/
def snapCandidates (rects : List SimpleRect) (width height threshold : ℚ) :
    List ℕ → SnapState → SnapState
  | [], st => st
  | idx :: rest, st =>
    let sib := rects.getD idx default
    let st1 := snapAxisX st width height threshold sib
    let st2 := snapAxisY st1 width height threshold sib
    if st2.snapped_x && st2.snapped_y then st2
    else snapCandidates rects width height threshold rest st2

/-- Source `LayoutEngine::query_snapping` (pure value part): enumerate the
cells overlapping the threshold-expanded box, deduplicate the rect
indices found there preserving first-encounter order, and run the
9-point first-match snap over them. -/
def query_snapping (e : LayoutEngine) (current_x current_y width height threshold : ℚ) :
    SnapResult :=
  let gx_min := ⌊(current_x - threshold) / e.cell_size⌋
  let gx_max := ⌊(current_x + width + threshold) / e.cell_size⌋
  let gy_min := ⌊(current_y - threshold) / e.cell_size⌋
  let gy_max := ⌊(current_y + height + threshold) / e.cell_size⌋
  let cells := cellsBetween gx_min gx_max gy_min gy_max
  let candidates := dedupFirst (cells.flatMap e.grid)
  let st := snapCandidates e.rects width height threshold candidates
    { new_x := current_x, new_y := current_y, guides := [],
      snapped_x := false, snapped_y := false }
  { x := st.new_x, y := st.new_y, guides := st.guides }

/-- Method view of `query_snapping`, as the `&self` method it is in the source: the
call returns its result together with the receiver.  The receiver is
returned as-is because the method takes `&self` — the body contains no
assignment to any field, and the shared borrow rules out mutation. -/
def query_snapping_method (e : LayoutEngine) (current_x current_y width height threshold : ℚ) :
    SnapResult × LayoutEngine :=
  (query_snapping e current_x current_y width height threshold, e)

/-- Compressed snapshot buffer (`Vec<u8>` holding gzip output).  The
gzip codec itself lives in the external `flate2` crate, so it is
modelled abstractly and faithfully to the source contract: `ok s` is
the compression of `s` (lossless: `decompress_state` recovers `s`
exactly), and `corrupt` stands for any buffer that is not a valid
compression output — including the empty buffer — on which
`decompress_state` returns `None`. -/
inductive Entry where
  | ok (s : String)
  | corrupt
deriving DecidableEq

/-- Source `compress_state`: compress a UTF-8 string to gzip bytes
(infallible for valid inputs). -/
def compress_state (data : String) : Entry := Entry.ok data

/-- Source `decompress_state`: gzip bytes back to a string, `None` when the
data is corrupted (or empty). -/
def decompress_state : Entry → Option String
  | Entry.ok s => some s
  | Entry.corrupt => none

/-- Source `struct HistoryManager` — compressed snapshot stack with cursor. -/
structure HistoryManager where
  stack : List Entry
  current_index : ℕ
  max_history : ℕ
deriving DecidableEq

/-- Constructor `HistoryManager::new(initial)`: seed the stack with one compressed
entry, cursor `0`, capacity `50`. -/
def HistoryManager.new (initial : String) : HistoryManager :=
  { stack := [compress_state initial], current_index := 0, max_history := 50 }

/-- Source `HistoryManager::push_state`: truncate any redo branch, append the
compressed snapshot, advance the cursor; when the stack exceeds
capacity evict index 0 and pull the cursor back by one.  (`ℕ`
subtraction coincides with the source's `usize` arithmetic on every
state with a non-empty stack, which construction guarantees.) -/
def HistoryManager.push_state (m : HistoryManager) (state : String) : HistoryManager :=
  let stack0 :=
    if m.current_index < m.stack.length - 1 then m.stack.take (m.current_index + 1)
    else m.stack
  let stack1 := stack0 ++ [compress_state state]
  let ci1 := m.current_index + 1
  if m.max_history < stack1.length then
    { stack := stack1.drop 1, current_index := ci1 - 1, max_history := m.max_history }
  else
    { stack := stack1, current_index := ci1, max_history := m.max_history }

/-- Source `HistoryManager::undo`: step the cursor back and decompress that
entry; `(None, unchanged)` when already at the bottom.  The method is
`&mut self`, so it is modelled as returning the result paired with the
successor state.  (The out-of-range list read, impossible when
`current_index < stack.length`, yields the `corrupt` default where
Rust would panic.) -/
def HistoryManager.undo (m : HistoryManager) : Option String × HistoryManager :=
  if 0 < m.current_index then
    let ci := m.current_index - 1
    (decompress_state (m.stack.getD ci Entry.corrupt),
     { m with current_index := ci })
  else (none, m)

/-- Source `HistoryManager::redo`: step the cursor forward and decompress that
entry; `(None, unchanged)` when already at the top. -/
def HistoryManager.redo (m : HistoryManager) : Option String × HistoryManager :=
  if m.current_index < m.stack.length - 1 then
    let ci := m.current_index + 1
    (decompress_state (m.stack.getD ci Entry.corrupt),
     { m with current_index := ci })
  else (none, m)

/-- Source `HistoryManager::can_undo`. -/
def HistoryManager.can_undo (m : HistoryManager) : Bool :=
  0 < m.current_index

/-- Source `HistoryManager::can_redo`. -/
def HistoryManager.can_redo (m : HistoryManager) : Bool :=
  m.current_index < m.stack.length - 1

/-- Source `struct GridInputNode` — input geometry of one canvas node. -/
structure GridInputNode where
  id : String
  x : ℚ
  y : ℚ
  w : ℚ
  h : ℚ
deriving DecidableEq

/-- Source `struct GridItem` — 1-based, end-exclusive CSS grid placement. -/
structure GridItem where
  id : String
  col_start : ℕ
  col_end : ℕ
  row_start : ℕ
  row_end : ℕ
deriving DecidableEq

/-- Source `struct GridLayout` — complete converter output.  Track sizes are
integral after rounding; they are kept as `ℚ` mirroring the `Vec<f64>`
fields. -/
structure GridLayout where
  template_columns : String
  template_rows : String
  col_widths_px : List ℚ
  row_heights_px : List ℚ
  items : List GridItem
deriving DecidableEq

/-- Track sizes from consecutive canonical lines: deltas rounded to the
nearest integer and floored at 1px (`(w[1] - w[0]).round().max(1.0)`). -/
def trackSizes (breaks : List ℚ) : List ℚ :=
  (breaks.zip breaks.tail).map fun p => max ((rustRound (p.2 - p.1) : ℚ)) 1

/-- Space-joined `"<n>px"` template tokens (`format!("{}px", w as i64)`;
the values are integral, so the `as i64` cast is exact). -/
def templateString (sizes : List ℚ) : String :=
  String.intercalate " " (sizes.map fun s => toString (rustRound s) ++ "px")

/-- Source `absolute_to_grid`: cluster the X/Y breakpoints of all nodes into
canonical lines, fail when the layout is degenerate, then derive track
sizes and 1-based end-exclusive placements.  The JSON
(de)serialization at the Wasm boundary is outside the modelled logic:
the function takes the parsed node list and returns the layout (or the
source's error string). -/
def absolute_to_grid (nodes : List GridInputNode) : Except String GridLayout :=
  if nodes.isEmpty then
    Except.error "[absolute_to_grid] No nodes provided"
  else
    let x_raw := nodes.flatMap fun n => [n.x, n.x + n.w]
    let y_raw := nodes.flatMap fun n => [n.y, n.y + n.h]
    let x_breaks := dedup_coords x_raw
    let y_breaks := dedup_coords y_raw
    if x_breaks.length < 2 ∨ y_breaks.length < 2 then
      Except.error "[absolute_to_grid] Degenerate layout: all nodes share the same coordinate"
    else
      let col_widths := trackSizes x_breaks
      let row_heights := trackSizes y_breaks
      let items := nodes.map fun node =>
        { id := node.id,
          col_start := find_coord_idx x_breaks node.x + 1,
          col_end := find_coord_idx x_breaks (node.x + node.w) + 1,
          row_start := find_coord_idx y_breaks node.y + 1,
          row_end := find_coord_idx y_breaks (node.y + node.h) + 1 : GridItem }
      Except.ok
        { template_columns := templateString col_widths,
          template_rows := templateString row_heights,
          col_widths_px := col_widths,
          row_heights_px := row_heights,
          items := items }

/-- HistoryStore invariant: non-empty stack, in-range cursor, stack
bounded by the capacity, which construction fixes at 50. -/
def Inv (m : HistoryManager) : Prop :=
  m.stack ≠ [] ∧
  m.current_index ≤ m.stack.length - 1 ∧
  m.stack.length ≤ m.max_history ∧
  m.max_history = 50

/-- States reachable from construction by any sequence of
`push_state`/`undo`/`redo` calls. -/
inductive Reachable : HistoryManager → Prop
  | seed (s : String) : Reachable (HistoryManager.new s)
  | push (m : HistoryManager) (s : String) : Reachable m → Reachable (m.push_state s)
  | back (m : HistoryManager) : Reachable m → Reachable (m.undo).2
  | forward (m : HistoryManager) : Reachable m → Reachable (m.redo).2

/-- The spec's concrete snap scenario: siblings `(0,0,100,100)`,
`(200,0,100,100)`, `(400,0,100,100)` loaded via `update_rects`. -/
def scenarioEngine : LayoutEngine :=
  update_rects LayoutEngine.new
    [⟨0, 0, 100, 100⟩, ⟨200, 0, 100, 100⟩, ⟨400, 0, 100, 100⟩]

/-! ## Theorems -/

/-- C1 counterexample: on the store `⟨[corrupt, ok "a"], 1⟩`, `undo`
returns `none` — the very value the nothing-to-undo branch returns
(here computed on the same stack at cursor 0) — and the cursor moves
from 1 to 0, so the state is not left unchanged and the failure is not
distinct from the no-op result. -/
theorem undo_corrupt_indistinguishable_cex :
    ((⟨[Entry.corrupt, Entry.ok "a"], 1, 50⟩ : HistoryManager).undo).1 = none ∧
    ((⟨[Entry.corrupt, Entry.ok "a"], 1, 50⟩ : HistoryManager).undo).1 =
      ((⟨[Entry.corrupt, Entry.ok "a"], 0, 50⟩ : HistoryManager).undo).1 ∧
    ((⟨[Entry.corrupt, Entry.ok "a"], 1, 50⟩ : HistoryManager).undo).2.current_index = 0 ∧
    (⟨[Entry.corrupt, Entry.ok "a"], 1, 50⟩ : HistoryManager).current_index = 1 := by
  with_unfolding_all decide

/-- C1 (amended): when the entry `undo`/`redo` would return fails to
decompress, the call yields `none` — indistinguishable from the
nothing-to-undo/redo result — the cursor still moves by one, and only
the stack itself is left unchanged; the failure is silently conflated
with the no-op result rather than propagated as a distinct fatal
error. -/
theorem undo_redo_corrupt_silent :
    (∀ m : HistoryManager, 0 < m.current_index →
      decompress_state (m.stack.getD (m.current_index - 1) Entry.corrupt) = none →
      (m.undo).1 = none ∧ (m.undo).2.stack = m.stack ∧
      (m.undo).2.current_index = m.current_index - 1) ∧
    (∀ m : HistoryManager, m.current_index < m.stack.length - 1 →
      decompress_state (m.stack.getD (m.current_index + 1) Entry.corrupt) = none →
      (m.redo).1 = none ∧ (m.redo).2.stack = m.stack ∧
      (m.redo).2.current_index = m.current_index + 1) := by
  constructor
  · intro m h1 h2
    unfold HistoryManager.undo
    rw [if_pos h1]
    exact ⟨h2, rfl, rfl⟩
  · intro m h1 h2
    unfold HistoryManager.redo
    rw [if_pos h1]
    exact ⟨h2, rfl, rfl⟩

/-- C1 witness: the amended theorem applied to concrete stores holding
a corrupt entry at the position `undo`/`redo` reads. -/
theorem undo_redo_corrupt_silent_witness :
    ((⟨[Entry.corrupt, Entry.ok "a"], 1, 50⟩ : HistoryManager).undo).1 = none ∧
    ((⟨[Entry.ok "a", Entry.corrupt], 0, 50⟩ : HistoryManager).redo).2.current_index = 1 := by
  exact ⟨(undo_redo_corrupt_silent.1 _ (by decide) (by decide)).1,
         (undo_redo_corrupt_silent.2 _ (by decide) (by decide)).2.2⟩

/-- Sum of halved dimensions equals half the summed dimensions. -/
theorem sum_map_half (l : List SimpleRect) :
    (l.map fun r => (r.w + r.h) / 2).sum = (l.map fun r => r.w + r.h).sum / 2 := by
  induction l with
  | nil => simp
  | cons a t ih =>
    rw [List.map_cons, List.map_cons, List.sum_cons, List.sum_cons, ih]
    ring

/-- C3 counterexample: a build with one 10×10 rect sets the cell size
to 50; a following build with an empty rect list leaves it at 50, not
100 — the empty-list default only describes the constructor. -/
theorem update_rects_empty_keeps_cell_size_cex :
    (update_rects (update_rects LayoutEngine.new [⟨0, 0, 10, 10⟩]) []).cell_size = 50 ∧
    ((50 : ℚ) ≠ 100) := by
  with_unfolding_all decide

/-- C3 (amended): after a build with a non-empty rect list the cell
size equals `clamp(1.5 × mean((w+h)/2), 50, 500)`; a build with an
empty rect list leaves the cell size unchanged (so it is 100 only when
no earlier non-empty build occurred since construction, where the
constructor sets 100). -/
theorem update_rects_cell_size_rule (e : LayoutEngine) (rects : List SimpleRect) :
    (rects ≠ [] →
      (update_rects e rects).cell_size =
        min 500 (max 50
          ((3 / 2) * ((rects.map fun r => (r.w + r.h) / 2).sum / (rects.length : ℚ))))) ∧
    (rects = [] → (update_rects e rects).cell_size = e.cell_size) ∧
    LayoutEngine.new.cell_size = 100 := by
  refine ⟨?_, ?_, rfl⟩
  · intro hne
    have hpos : 0 < rects.length := List.length_pos.mpr hne
    have hn : ((rects.length : ℚ)) ≠ 0 := by
      exact_mod_cast Nat.pos_iff_ne_zero.mp hpos
    simp only [update_rects, hpos, if_pos]
    rw [sum_map_half, min_comm, max_comm]
    congr 1
    congr 1
    field_simp
    ring
  · intro h
    subst h
    simp [update_rects]

/-- C3 witness: the amended rule evaluated on a concrete engine and a
single 10×10 rect (mean dimension 10, `1.5 × 10` clamps to 50). -/
theorem update_rects_cell_size_rule_witness :
    (update_rects LayoutEngine.new [⟨0, 0, 10, 10⟩]).cell_size =
      min 500 (max 50 ((3 / 2) *
        ((([⟨0, 0, 10, 10⟩] : List SimpleRect).map fun r => (r.w + r.h) / 2).sum /
          (([⟨0, 0, 10, 10⟩] : List SimpleRect).length : ℚ)))) ∧
    (update_rects LayoutEngine.new []).cell_size = LayoutEngine.new.cell_size := by
  exact ⟨(update_rects_cell_size_rule LayoutEngine.new _).1 (by simp),
         (update_rects_cell_size_rule LayoutEngine.new []).2.1 rfl⟩

/-- C4 counterexample: one sibling `(0,0,8,8)`, dragging an 8×8 rect.
Querying `(8.5, 0)` with threshold 5 snaps to `(4, 0)` (left edge vs
sibling center); re-querying the returned `(4, 0)` snaps again, to
`(0, 0)` (left edge vs sibling left edge, now within threshold), so
the second call does not return the first call's position. -/
theorem query_snapping_not_idempotent_cex :
    (query_snapping (update_rects LayoutEngine.new [⟨0, 0, 8, 8⟩]) (17/2) 0 8 8 5).x = 4 ∧
    (query_snapping (update_rects LayoutEngine.new [⟨0, 0, 8, 8⟩]) (17/2) 0 8 8 5).y = 0 ∧
    (query_snapping (update_rects LayoutEngine.new [⟨0, 0, 8, 8⟩]) 4 0 8 8 5).x = 0 ∧
    ((0 : ℚ) ≠ 4) := by
  with_unfolding_all decide

/-- C4 (amended): snap querying is not idempotent in general — re-
querying a snapped position may match a different, earlier-ordered
candidate pair strictly within threshold and move again.  It is
idempotent when the re-query's first matching pair on each snapped
axis has zero delta, as in the spec's concrete scenario: there the
snapped position `(200, 0)` re-queries to exactly the same result,
with an identical guide list. -/
theorem query_snapping_idempotent_scenario :
    query_snapping scenarioEngine 200 0 100 100 5 =
      query_snapping scenarioEngine 198 0 100 100 5 ∧
    (query_snapping scenarioEngine 198 0 100 100 5).x = 200 ∧
    (query_snapping scenarioEngine 198 0 100 100 5).y = 0 := by
  with_unfolding_all decide

/-- C6: in the concrete scenario, querying a 100×100 rect at `(198,0)`
with threshold 5 returns `x = 200`, `y = 0`, and exactly one vertical
guide, at `pos = 200` spanning `[0, 100]`. -/
theorem concrete_snap_scenario :
    (query_snapping scenarioEngine 198 0 100 100 5).x = 200 ∧
    (query_snapping scenarioEngine 198 0 100 100 5).y = 0 ∧
    (query_snapping scenarioEngine 198 0 100 100 5).guides.filter
        (fun g => g.orientation == "vertical") =
      [{ orientation := "vertical", pos := 200, start := 0, end_ := 100,
         guide_type := "align" }] := by
  with_unfolding_all decide

/-- C10: `query_snapping` is deterministic — two calls with equal
arguments agree on `x`, `y` and the guide list (order included) — and
read-only: the `&self` method leaves `rects`, `grid` and `cell_size`
untouched. -/
theorem query_snapping_deterministic_readonly
    (e : LayoutEngine) (x y w h t x2 y2 w2 h2 t2 : ℚ)
    (hx : x2 = x) (hy : y2 = y) (hw : w2 = w) (hh : h2 = h) (ht : t2 = t) :
    (query_snapping e x2 y2 w2 h2 t2).x = (query_snapping e x y w h t).x ∧
    (query_snapping e x2 y2 w2 h2 t2).y = (query_snapping e x y w h t).y ∧
    (query_snapping e x2 y2 w2 h2 t2).guides = (query_snapping e x y w h t).guides ∧
    (query_snapping_method e x y w h t).2.rects = e.rects ∧
    (query_snapping_method e x y w h t).2.grid = e.grid ∧
    (query_snapping_method e x y w h t).2.cell_size = e.cell_size := by
  subst hx hy hw hh ht
  exact ⟨rfl, rfl, rfl, rfl, rfl, rfl⟩

/-- C10 witness: the determinism/read-only theorem instantiated on the
concrete scenario engine and query. -/
theorem query_snapping_deterministic_readonly_witness :
    (query_snapping scenarioEngine 198 0 100 100 5).x =
      (query_snapping scenarioEngine 198 0 100 100 5).x ∧
    (query_snapping scenarioEngine 198 0 100 100 5).y =
      (query_snapping scenarioEngine 198 0 100 100 5).y ∧
    (query_snapping scenarioEngine 198 0 100 100 5).guides =
      (query_snapping scenarioEngine 198 0 100 100 5).guides ∧
    (query_snapping_method scenarioEngine 198 0 100 100 5).2.rects = scenarioEngine.rects ∧
    (query_snapping_method scenarioEngine 198 0 100 100 5).2.grid = scenarioEngine.grid ∧
    (query_snapping_method scenarioEngine 198 0 100 100 5).2.cell_size =
      scenarioEngine.cell_size := by
  exact query_snapping_deterministic_readonly scenarioEngine
    198 0 100 100 5 198 0 100 100 5 rfl rfl rfl rfl rfl

/-- Sorting a two-element list already in order. -/
theorem sortCoords_pair (a b : ℚ) (hab : a ≤ b) : sortCoords [a, b] = [a, b] := by
  simp [sortCoords, insertSorted, hab]

/-- Clustering a two-element list: the values merge to their mean
exactly when they are within the (inclusive) 4px tolerance. -/
theorem dedup_coords_pair (a b : ℚ) (hab : a ≤ b) :
    dedup_coords [a, b] = if b - a ≤ 4 then [(a + b) / 2] else [a, b] := by
  unfold dedup_coords
  rw [sortCoords_pair a b hab]
  simp only [List.foldl, dedupStep, SNAP_TOL]
  rw [Nat.cast_one, div_one, abs_of_nonneg (by linarith : (0:ℚ) ≤ b - a)]
  split
  · norm_num
  · norm_num

/-- C9: clustering uses an inclusive 4px tolerance against the running
group mean — two coordinates at most 4px apart (e.g. 3.9px) merge into
one canonical line at their mean, two coordinates strictly more than
4px apart (e.g. 4.1px) stay distinct; and the tolerance is measured
against the running mean, not the first member: in `[0, 4, 6]` the
value 6 still joins (mean 2, distance 4 ≤ 4), giving one line. -/
theorem clustering_boundary :
    (∀ a b : ℚ, a ≤ b → b - a ≤ 4 → dedup_coords [a, b] = [(a + b) / 2]) ∧
    (∀ a b : ℚ, a ≤ b → 4 < b - a → dedup_coords [a, b] = [a, b]) ∧
    dedup_coords [0, 4, 6] = [10/3] := by
  refine ⟨?_, ?_, by with_unfolding_all decide⟩
  · intro a b hab h4
    rw [dedup_coords_pair a b hab, if_pos h4]
  · intro a b hab h4
    rw [dedup_coords_pair a b hab, if_neg (not_le.mpr h4)]

/-- C9 witness: coordinates 3.9px apart merge to one line, 4.1px apart
stay two lines, and the boundary 4.0px still merges (inclusive). -/
theorem clustering_boundary_witness :
    dedup_coords [0, 39/10] = [39/20] ∧
    dedup_coords [0, 41/10] = [0, 41/10] ∧
    dedup_coords [0, 4] = [2] := by
  refine ⟨?_, ?_, ?_⟩
  · have h := clustering_boundary.1 0 (39/10) (by norm_num) (by norm_num)
    rw [h]
    norm_num
  · exact clustering_boundary.2.1 0 (41/10) (by norm_num) (by norm_num)
  · have h := clustering_boundary.1 0 4 (by norm_num) (by norm_num)
    rw [h]
    norm_num

/-- Characterization of the `min_by` scan tail `fciAux`: either the
incoming best index survives (its distance is at most every remaining
one), or the scan returns `cur + j` where `j` is the position of a
strict improvement that is minimal overall and strictly better than
every position before it. -/
theorem fciAux_cases (t : ℚ) (vs : List ℚ) : ∀ (cur bi : ℕ) (bv : ℚ),
    (fciAux t vs cur bi bv = bi ∧ ∀ m, m < vs.length → |bv - t| ≤ |vs.getD m 0 - t|)
    ∨ (∃ j, j < vs.length ∧ fciAux t vs cur bi bv = cur + j ∧
        |vs.getD j 0 - t| < |bv - t| ∧
        (∀ m, m < vs.length → |vs.getD j 0 - t| ≤ |vs.getD m 0 - t|) ∧
        (∀ m, m < j → |vs.getD j 0 - t| < |vs.getD m 0 - t|)) := by
  induction vs with
  | nil =>
    intro cur bi bv
    left
    refine ⟨rfl, ?_⟩
    intro m hm
    simp at hm
  | cons v vs ih =>
    intro cur bi bv
    by_cases h : |v - t| < |bv - t|
    · have hstep : fciAux t (v :: vs) cur bi bv = fciAux t vs (cur + 1) cur v := by
        simp [fciAux, h]
      rcases ih (cur + 1) cur v with ⟨he, hmin⟩ | ⟨j, hj, he, hlt, hmin, hstrict⟩
      · right
        refine ⟨0, by simp, ?_, ?_, ?_, ?_⟩
        · rw [hstep, he, Nat.add_zero]
        · simpa using h
        · intro m hm
          cases m with
          | zero => simp
          | succ k =>
            simp only [List.getD_cons_zero, List.getD_cons_succ]
            exact hmin k (by simpa using hm)
        · intro m hm
          exact absurd hm (Nat.not_lt_zero m)
      · right
        refine ⟨j + 1, by simpa using hj, ?_, ?_, ?_, ?_⟩
        · rw [hstep, he]
          omega
        · simp only [List.getD_cons_succ]
          exact lt_trans hlt h
        · intro m hm
          cases m with
          | zero =>
            simp only [List.getD_cons_succ, List.getD_cons_zero]
            exact le_of_lt hlt
          | succ k =>
            simp only [List.getD_cons_succ]
            exact hmin k (by simpa using hm)
        · intro m hm
          cases m with
          | zero =>
            simp only [List.getD_cons_succ, List.getD_cons_zero]
            exact hlt
          | succ k =>
            simp only [List.getD_cons_succ]
            exact hstrict k (by omega)
    · have hstep : fciAux t (v :: vs) cur bi bv = fciAux t vs (cur + 1) bi bv := by
        simp [fciAux, h]
      have hle : |bv - t| ≤ |v - t| := not_lt.mp h
      rcases ih (cur + 1) bi bv with ⟨he, hmin⟩ | ⟨j, hj, he, hlt, hmin, hstrict⟩
      · left
        refine ⟨by rw [hstep, he], ?_⟩
        intro m hm
        cases m with
        | zero => simpa using hle
        | succ k =>
          simp only [List.getD_cons_succ]
          exact hmin k (by simpa using hm)
      · right
        refine ⟨j + 1, by simpa using hj, ?_, ?_, ?_, ?_⟩
        · rw [hstep, he]
          omega
        · simp only [List.getD_cons_succ]
          exact hlt
        · intro m hm
          cases m with
          | zero =>
            simp only [List.getD_cons_succ, List.getD_cons_zero]
            exact le_trans (le_of_lt hlt) hle
          | succ k =>
            simp only [List.getD_cons_succ]
            exact hmin k (by simpa using hm)
        · intro m hm
          cases m with
          | zero =>
            simp only [List.getD_cons_succ, List.getD_cons_zero]
            exact lt_of_lt_of_le hlt hle
          | succ k =>
            simp only [List.getD_cons_succ]
            exact hstrict k (by omega)

/-- C2: on a non-empty list of canonical lines, `find_coord_idx`
returns an in-range index whose line attains the minimal absolute
distance to the target, and among equally-minimal indices it is the
lowest. -/
theorem find_coord_idx_nearest_lowest (breaks : List ℚ) (target : ℚ) (h : breaks ≠ []) :
    find_coord_idx breaks target < breaks.length ∧
    (∀ j, j < breaks.length →
      |breaks.getD (find_coord_idx breaks target) 0 - target| ≤
        |breaks.getD j 0 - target|) ∧
    (∀ j, j < breaks.length →
      |breaks.getD j 0 - target| = |breaks.getD (find_coord_idx breaks target) 0 - target| →
      find_coord_idx breaks target ≤ j) := by
  match breaks, h with
  | b :: bs, _ =>
    have hfind : find_coord_idx (b :: bs) target = fciAux target bs 1 0 b := rfl
    rcases fciAux_cases target bs 1 0 b with ⟨he, hmin⟩ | ⟨j, hj, he, hlt, hmin, hstrict⟩
    · rw [hfind, he]
      refine ⟨by simp, ?_, ?_⟩
      · intro m hm
        cases m with
        | zero => simp
        | succ k =>
          simp only [List.getD_cons_zero, List.getD_cons_succ]
          exact hmin k (by simpa using hm)
      · intro m _ _
        exact Nat.zero_le m
    · rw [hfind, he, Nat.add_comm 1 j]
      refine ⟨by simpa using hj, ?_, ?_⟩
      · intro m hm
        cases m with
        | zero =>
          simp only [List.getD_cons_succ, List.getD_cons_zero]
          exact le_of_lt hlt
        | succ k =>
          simp only [List.getD_cons_succ]
          exact hmin k (by simpa using hm)
      · intro m hm heq
        cases m with
        | zero =>
          rw [List.getD_cons_zero, List.getD_cons_succ] at heq
          exact absurd heq (ne_of_gt hlt)
        | succ k =>
          rw [List.getD_cons_succ, List.getD_cons_succ] at heq
          by_contra hc
          push_neg at hc
          have hs := hstrict k (by omega)
          rw [heq] at hs
          exact lt_irrefl _ hs

/-- C2 witness: the nearest-index theorem applied to the concrete line
list `[0, 10]` with target 1 (index 0 is nearest). -/
theorem find_coord_idx_nearest_lowest_witness :
    find_coord_idx [0, 10] 1 < ([0, 10] : List ℚ).length ∧
    |([0, 10] : List ℚ).getD (find_coord_idx [0, 10] 1) 0 - 1| ≤
      |([0, 10] : List ℚ).getD 1 0 - 1| := by
  refine ⟨(find_coord_idx_nearest_lowest [0, 10] 1 (by simp)).1,
          (find_coord_idx_nearest_lowest [0, 10] 1 (by simp)).2.1 1 (by simp)⟩

/-- Construction establishes the history invariant. -/
theorem inv_new (s : String) : Inv (HistoryManager.new s) := by
  refine ⟨by simp [HistoryManager.new], by simp [HistoryManager.new],
    by simp [HistoryManager.new], rfl⟩

/-- Operation `push_state` preserves the history invariant. -/
theorem inv_push (m : HistoryManager) (s : String) (h : Inv m) : Inv (m.push_state s) := by
  obtain ⟨hne, hci, hcap, hmax⟩ := h
  have hlen : 0 < m.stack.length := List.length_pos.mpr hne
  simp only [HistoryManager.push_state]
  by_cases ht : m.current_index < m.stack.length - 1
  · rw [if_pos ht]
    have hlen1 : ((m.stack.take (m.current_index + 1)) ++ [compress_state s]).length
        = m.current_index + 2 := by
      simp only [List.length_append, List.length_take, List.length_cons, List.length_nil]
      omega
    rw [hlen1, if_neg (by omega : ¬ m.max_history < m.current_index + 2)]
    refine ⟨?_, ?_, ?_, hmax⟩
    · simp
    · dsimp only
      rw [hlen1]
      omega
    · dsimp only
      rw [hlen1]
      omega
  · rw [if_neg ht]
    have hlen1 : (m.stack ++ [compress_state s]).length = m.stack.length + 1 := by
      simp
    by_cases hov : m.max_history < (m.stack ++ [compress_state s]).length
    · rw [if_pos hov]
      rw [hlen1] at hov
      refine ⟨?_, ?_, ?_, hmax⟩
      · refine List.length_pos.mp ?_
        dsimp only
        simp only [List.length_drop, hlen1]
        omega
      · dsimp only
        simp only [List.length_drop, hlen1]
        omega
      · dsimp only
        simp only [List.length_drop, hlen1]
        omega
    · rw [if_neg hov]
      rw [hlen1] at hov
      refine ⟨?_, ?_, ?_, hmax⟩
      · simp
      · dsimp only
        simp only [hlen1]
        omega
      · dsimp only
        simp only [hlen1]
        omega

/-- Operation `undo` preserves the history invariant. -/
theorem inv_undo (m : HistoryManager) (h : Inv m) : Inv (m.undo).2 := by
  obtain ⟨hne, hci, hcap, hmax⟩ := h
  unfold HistoryManager.undo
  by_cases h0 : 0 < m.current_index
  · rw [if_pos h0]
    refine ⟨hne, ?_, hcap, hmax⟩
    dsimp only
    omega
  · rw [if_neg h0]
    exact ⟨hne, hci, hcap, hmax⟩

/-- Operation `redo` preserves the history invariant. -/
theorem inv_redo (m : HistoryManager) (h : Inv m) : Inv (m.redo).2 := by
  obtain ⟨hne, hci, hcap, hmax⟩ := h
  have hlen : 0 < m.stack.length := List.length_pos.mpr hne
  unfold HistoryManager.redo
  by_cases h0 : m.current_index < m.stack.length - 1
  · rw [if_pos h0]
    refine ⟨hne, ?_, hcap, hmax⟩
    dsimp only
    omega
  · rw [if_neg h0]
    exact ⟨hne, hci, hcap, hmax⟩

/-- Folding any sequence of pushes preserves the history invariant. -/
theorem inv_foldl (l : List String) : ∀ m : HistoryManager, Inv m →
    Inv (l.foldl HistoryManager.push_state m) := by
  induction l with
  | nil => intro m h; exact h
  | cons a t ih => intro m h; exact ih _ (inv_push m a h)

/-- C5: every store reachable from construction by
`push_state`/`undo`/`redo` has a non-empty stack, an in-range cursor
(`currentIndex ≤ stack.length - 1`) and at most 50 entries; and each
single operation preserves the invariant `Inv` on any state satisfying
it. -/
theorem history_reachable_invariants :
    (∀ m : HistoryManager, Reachable m →
      m.stack ≠ [] ∧ m.current_index ≤ m.stack.length - 1 ∧ m.stack.length ≤ 50) ∧
    (∀ (m : HistoryManager) (s : String), Inv m → Inv (m.push_state s)) ∧
    (∀ m : HistoryManager, Inv m → Inv (m.undo).2) ∧
    (∀ m : HistoryManager, Inv m → Inv (m.redo).2) := by
  have hreach : ∀ m, Reachable m → Inv m := by
    intro m hr
    induction hr with
    | seed s => exact inv_new s
    | push m s _ ih => exact inv_push m s ih
    | back m _ ih => exact inv_undo m ih
    | forward m _ ih => exact inv_redo m ih
  refine ⟨?_, fun m s => inv_push m s, fun m => inv_undo m, fun m => inv_redo m⟩
  intro m hr
  obtain ⟨h1, h2, h3, h4⟩ := hreach m hr
  exact ⟨h1, h2, h4 ▸ h3⟩

/-- C5 witness: the invariants at a freshly constructed store, and
preservation applied to one concrete push on it. -/
theorem history_reachable_invariants_witness :
    ((HistoryManager.new "a").stack ≠ [] ∧
     (HistoryManager.new "a").current_index ≤ (HistoryManager.new "a").stack.length - 1 ∧
     (HistoryManager.new "a").stack.length ≤ 50) ∧
    Inv ((HistoryManager.new "a").push_state "b") := by
  exact ⟨history_reachable_invariants.1 _ (Reachable.seed "a"),
         history_reachable_invariants.2.1 _ "b" (inv_new "a")⟩

/-- C8: (i) pushing any 51 states into a fresh capacity-50 store keeps
`stack.length ≤ 50` after every prefix of the pushes; (ii) a push onto
a full stack with the cursor at the top evicts exactly index 0
(`drop 1`) and sets the cursor to its pre-eviction value
(`currentIndex + 1`) minus one. -/
theorem history_capacity_eviction :
    (∀ (init : String) (states : List String), states.length = 51 →
      ∀ k : ℕ,
        ((states.take k).foldl HistoryManager.push_state
          (HistoryManager.new init)).stack.length ≤ 50) ∧
    (∀ (m : HistoryManager) (s : String),
      m.stack.length = 50 → m.current_index = 49 → m.max_history = 50 →
      m.push_state s =
        { stack := m.stack.drop 1 ++ [compress_state s],
          current_index := (m.current_index + 1) - 1,
          max_history := 50 }) := by
  constructor
  · intro init states _ k
    obtain ⟨_, _, h3, h4⟩ := inv_foldl (states.take k) _ (inv_new init)
    omega
  · intro m s h50 h49 hmax
    simp only [HistoryManager.push_state]
    rw [if_neg (by omega : ¬ m.current_index < m.stack.length - 1)]
    rw [if_pos (by simp [h50, hmax] : m.max_history < (m.stack ++ [compress_state s]).length)]
    simp only [HistoryManager.mk.injEq]
    refine ⟨?_, trivial, hmax⟩
    rw [List.drop_append_of_le_length (by omega)]

/-- C8 witness: capacity bound after 51 concrete pushes, and the
eviction equation on a concrete full store. -/
theorem history_capacity_eviction_witness :
    (((List.replicate 51 "s").take 51).foldl HistoryManager.push_state
      (HistoryManager.new "i")).stack.length ≤ 50 ∧
    ((⟨List.replicate 50 (Entry.ok "e"), 49, 50⟩ : HistoryManager).push_state "t" =
      { stack := (List.replicate 50 (Entry.ok "e")).drop 1 ++ [compress_state "t"],
        current_index := (49 + 1) - 1,
        max_history := 50 }) := by
  exact ⟨history_capacity_eviction.1 "i" (List.replicate 51 "s") (by simp) 51,
         history_capacity_eviction.2 _ "t" (by simp) rfl rfl⟩

/-- Rounding half away from zero stays within a half pixel for
non-negative inputs. -/
theorem rustRound_half_bound (q : ℚ) (hq : 0 ≤ q) :
    ((rustRound q : ℤ) : ℚ) ≤ q + 1/2 ∧ q - 1/2 ≤ ((rustRound q : ℤ) : ℚ) := by
  rw [rustRound, if_pos hq]
  constructor
  · exact_mod_cast Int.floor_le (q + 1/2)
  · have hlt := Int.lt_floor_add_one (q + 1/2)
    push_cast at hlt ⊢
    linarith

/-- Nearest index in an ordered pair: the left endpoint maps to 0. -/
theorem find_coord_idx_pair_left (a b : ℚ) : find_coord_idx [a, b] a = 0 := by
  show fciAux a [b] 1 0 a = 0
  have hc : ¬ (|b - a| < |a - a|) := by
    rw [sub_self, abs_zero]
    exact not_lt.mpr (abs_nonneg _)
  simp only [fciAux, if_neg hc]

/-- Nearest index in an ordered pair: the right endpoint maps to 1. -/
theorem find_coord_idx_pair_right (a b : ℚ) (hab : a < b) : find_coord_idx [a, b] b = 1 := by
  show fciAux b [b] 1 0 a = 1
  have hc : |b - b| < |a - b| := by
    rw [sub_self, abs_zero]
    exact abs_pos.mpr (sub_ne_zero.mpr (ne_of_lt hab))
  simp only [fciAux, if_pos hc]

/-- C7 counterexample: a single 2×2 node (width and height below the
4px clustering tolerance) makes both breakpoint pairs merge into one
canonical line per axis, so `absolute_to_grid` fails with the
degenerate-layout error instead of succeeding. -/
theorem single_node_grid_small_fails_cex :
    (absolute_to_grid [⟨"A", 0, 0, 2, 2⟩]).isOk = false := by
  with_unfolding_all decide

/-- C7 (amended): for a single input node whose width and height both
exceed the 4px clustering tolerance, `absolute_to_grid` succeeds with
exactly one column track and one row track sized `w`/`h` up to the
half-pixel rounding (hence within ±1px) and the placement
`{colStart 1, colEnd 2, rowStart 1, rowEnd 2}`; with `w ≤ 4` or
`h ≤ 4` the two breakpoints of that axis merge and the call fails. -/
theorem single_node_grid (id : String) (x y w h : ℚ) (hw : 4 < w) (hh : 4 < h) :
    (absolute_to_grid [⟨id, x, y, w, h⟩]).map GridLayout.col_widths_px =
      Except.ok [((rustRound w : ℤ) : ℚ)] ∧
    |((rustRound w : ℤ) : ℚ) - w| ≤ 1 ∧
    (absolute_to_grid [⟨id, x, y, w, h⟩]).map GridLayout.row_heights_px =
      Except.ok [((rustRound h : ℤ) : ℚ)] ∧
    |((rustRound h : ℤ) : ℚ) - h| ≤ 1 ∧
    (absolute_to_grid [⟨id, x, y, w, h⟩]).map GridLayout.items =
      Except.ok [⟨id, 1, 2, 1, 2⟩] := by
  have hwpos : (0:ℚ) < w := by linarith
  have hhpos : (0:ℚ) < h := by linarith
  have hxa : x ≤ x + w := by linarith
  have hya : y ≤ y + h := by linarith
  have hxb : dedup_coords [x, x + w] = [x, x + w] := by
    rw [dedup_coords_pair x (x + w) hxa, if_neg]
    rw [add_sub_cancel_left]
    exact not_le.mpr hw
  have hyb : dedup_coords [y, y + h] = [y, y + h] := by
    rw [dedup_coords_pair y (y + h) hya, if_neg]
    rw [add_sub_cancel_left]
    exact not_le.mpr hh
  have hts : ∀ a b : ℚ, trackSizes [a, b] = [max ((rustRound (b - a) : ℤ) : ℚ) 1] := by
    intro a b
    simp [trackSizes]
  have hmaxw : max ((rustRound w : ℤ) : ℚ) 1 = ((rustRound w : ℤ) : ℚ) := by
    refine max_eq_left ?_
    have := (rustRound_half_bound w (le_of_lt hwpos)).2
    linarith
  have hmaxh : max ((rustRound h : ℤ) : ℚ) 1 = ((rustRound h : ℤ) : ℚ) := by
    refine max_eq_left ?_
    have := (rustRound_half_bound h (le_of_lt hhpos)).2
    linarith
  have hcompute : absolute_to_grid [⟨id, x, y, w, h⟩] =
      Except.ok
        { template_columns := templateString (trackSizes [x, x + w]),
          template_rows := templateString (trackSizes [y, y + h]),
          col_widths_px := trackSizes [x, x + w],
          row_heights_px := trackSizes [y, y + h],
          items := [⟨id, 1, 2, 1, 2⟩] } := by
    unfold absolute_to_grid
    simp only [List.isEmpty_cons, Bool.false_eq_true, if_false,
      List.flatMap_cons, List.flatMap_nil, List.append_nil]
    rw [hxb, hyb]
    rw [if_neg (by simp)]
    simp only [List.map_cons, List.map_nil]
    rw [find_coord_idx_pair_left x (x + w),
        find_coord_idx_pair_right x (x + w) (by linarith),
        find_coord_idx_pair_left y (y + h),
        find_coord_idx_pair_right y (y + h) (by linarith)]
  rw [hcompute]
  have hw1 : |((rustRound w : ℤ) : ℚ) - w| ≤ 1 := by
    obtain ⟨h1, h2⟩ := rustRound_half_bound w (le_of_lt hwpos)
    rw [abs_le]
    constructor <;> linarith
  have hh1 : |((rustRound h : ℤ) : ℚ) - h| ≤ 1 := by
    obtain ⟨h1, h2⟩ := rustRound_half_bound h (le_of_lt hhpos)
    rw [abs_le]
    constructor <;> linarith
  refine ⟨?_, hw1, ?_, hh1, ?_⟩
  · simp only [Except.map, hts, add_sub_cancel_left, hmaxw]
  · simp only [Except.map, hts, add_sub_cancel_left, hmaxh]
  · simp only [Except.map]

/-- C7 witness: the single-node theorem at a concrete 100×50 node at
`(7, 9)`. -/
theorem single_node_grid_witness :
    (absolute_to_grid [⟨"A", 7, 9, 100, 50⟩]).map GridLayout.col_widths_px =
      Except.ok [((rustRound 100 : ℤ) : ℚ)] ∧
    |((rustRound 100 : ℤ) : ℚ) - 100| ≤ 1 ∧
    (absolute_to_grid [⟨"A", 7, 9, 100, 50⟩]).map GridLayout.row_heights_px =
      Except.ok [((rustRound 50 : ℤ) : ℚ)] ∧
    |((rustRound 50 : ℤ) : ℚ) - 50| ≤ 1 ∧
    (absolute_to_grid [⟨"A", 7, 9, 100, 50⟩]).map GridLayout.items =
      Except.ok [⟨"A", 1, 2, 1, 2⟩] := by
  exact single_node_grid "A" 7 9 100 50 (by norm_num) (by norm_num)

end Vectra
